import Mathlib

/-!
Verification development for the Swig wallet-authorization examples.

The repository's own sources (src/src/examples and src/src/main.rs) are
thin drivers over the swig-sdk core.  The spec describes that core; where
the deciding code is not present in the repository, the definitions below
are modelled from the spec (each such definition says so in its doc
comment).  Definitions taken from code present in the repository cite the
file and lines they embed.
-/

namespace Swig

/-- Modelled from the spec: the swig-sdk `RecurringConfig` with fields
`window` (duration in ledger time units), `last_reset` (timestamp of the
last window start) and `current_amount` (amount consumed in the current
window).  The field literals appear in src/src/examples/wallet_operations.rs
lines 81-85. -/
structure RecurringConfig where
  window : Nat
  lastReset : Nat
  currentAmount : Nat
  deriving DecidableEq, Repr

/-- Modelled from the spec: the swig-sdk `Permission` tagged variant.  The
eleven variants are listed in spec section 3 and enumerated by
`demonstrate_permission_types` in src/src/examples/wallet_operations.rs
lines 248-294; `ProgramCurated` additionally appears at
src/src/examples/ed25519_wallet.rs line 109.  Amounts, mints, destinations
and sub-account ids are abstracted to `Nat`. -/
inductive Permission where
  | all : Permission
  | manageAuthority : Permission
  | sol (amount : Nat) (recurring : Option RecurringConfig) : Permission
  | solDestination (destination : Nat) (amount : Nat)
      (recurring : Option RecurringConfig) : Permission
  | token (mint : Nat) (amount : Nat)
      (recurring : Option RecurringConfig) : Permission
  | tokenDestination (mint : Nat) (destination : Nat) (amount : Nat)
      (recurring : Option RecurringConfig) : Permission
  | program (programId : Nat) : Permission
  | programAll : Permission
  | programCurated : Permission
  | subAccount (subAccountId : Nat) : Permission
  | stake (amount : Nat) (recurring : Option RecurringConfig) : Permission
  | allButManageAuthority : Permission
  deriving DecidableEq, Repr

/-- Modelled from the spec: a requested resource effect, the unit the
PermissionEngine evaluates (spec section 4.2: the set of resource effects
an operation bundle would cause). -/
inductive Effect where
  | solTransfer (destination : Nat) (amount : Nat) : Effect
  | tokenTransfer (mint : Nat) (destination : Nat) (amount : Nat) : Effect
  | programInvoke (programId : Nat) : Effect
  | subAccountOp (subAccountId : Nat) : Effect
  | stakeOp (amount : Nat) : Effect
  | manageAuthorities : Effect
  deriving DecidableEq, Repr

/-- Modelled from the spec: crossing into a new window
(`now - last_reset >= window`) resets `current_amount` to 0 and
`last_reset` to `now` before evaluating the request (spec section 3). -/
def rollWindow (now : Nat) (rc : RecurringConfig) : RecurringConfig :=
  if rc.window ≤ now - rc.lastReset then ⟨rc.window, now, 0⟩ else rc

/-- Modelled from the spec: evaluate an amount-limited permission.  With
no recurring window the effect amount must not exceed the static limit and
no state is consumed; with a recurring window the window is rolled if
expired, then `current_amount + requested <= limit` is checked and on
success the incremented `current_amount` is committed (spec section 4.2).
Returns the updated recurring state on success, `none` on denial. -/
def checkLimited (limit : Nat) (recurring : Option RecurringConfig)
    (amt : Nat) (now : Nat) : Option (Option RecurringConfig) :=
  match recurring with
  | none => if amt ≤ limit then some none else none
  | some rc =>
    let rc2 := rollWindow now rc
    if rc2.currentAmount + amt ≤ limit then
      some (some ⟨rc2.window, rc2.lastReset, rc2.currentAmount + amt⟩)
    else none

/-- Modelled from the spec: does one permission authorize one effect
(spec section 4.2)?  `All` and `AllButManageAuthority` short-circuit
coverage checks, except that `AllButManageAuthority` denies
authority-management effects; limited variants go through `checkLimited`.
`curated` abstracts the fixed curated-program set consulted by
`ProgramCurated`.  On success the returned permission carries the
committed recurring state; on denial the caller keeps the original. -/
def permitEffect (now : Nat) (curated : Nat → Bool)
    (p : Permission) (e : Effect) : Option Permission :=
  match p, e with
  | .all, _ => some .all
  | .allButManageAuthority, .manageAuthorities => none
  | .allButManageAuthority, _ => some .allButManageAuthority
  | .manageAuthority, .manageAuthorities => some .manageAuthority
  | .manageAuthority, _ => none
  | .sol limit rec, .solTransfer _ amt =>
      (checkLimited limit rec amt now).map (.sol limit ·)
  | .solDestination dest limit rec, .solTransfer d amt =>
      if d = dest then
        (checkLimited limit rec amt now).map (.solDestination dest limit ·)
      else none
  | .token mint limit rec, .tokenTransfer m _ amt =>
      if m = mint then
        (checkLimited limit rec amt now).map (.token mint limit ·)
      else none
  | .tokenDestination mint dest limit rec, .tokenTransfer m d amt =>
      if m = mint ∧ d = dest then
        (checkLimited limit rec amt now).map (.tokenDestination mint dest limit ·)
      else none
  | .program pid, .programInvoke q => if q = pid then some (.program pid) else none
  | .programAll, .programInvoke _ => some .programAll
  | .programCurated, .programInvoke q =>
      if curated q then some .programCurated else none
  | .subAccount sid, .subAccountOp q =>
      if q = sid then some (.subAccount sid) else none
  | .stake limit rec, .stakeOp amt =>
      (checkLimited limit rec amt now).map (.stake limit ·)
  | _, _ => none

/-- Modelled from the spec: authorization succeeds if ANY permission in
the set covers the requested effect; the first one (declaration order)
that authorizes wins and is the one whose recurring state is mutated
(spec sections 3 and 4.2).  Returns the updated permission list on
success, `none` on denial. -/
def authorizeEffect (now : Nat) (curated : Nat → Bool)
    (perms : List Permission) (e : Effect) : Option (List Permission) :=
  match perms with
  | [] => none
  | p :: rest =>
    match permitEffect now curated p e with
    | some p2 => some (p2 :: rest)
    | none => (authorizeEffect now curated rest e).map (p :: ·)

/-- Modelled from the spec: one authorize call on a permission set.  An
authorized request commits the mutated permission state; a denied request
leaves the state unmutated (spec section 4.2: otherwise deny without
mutating state). -/
def applyRequest (curated : Nat → Bool) (perms : List Permission)
    (r : Effect × Nat) : List Permission :=
  (authorizeEffect r.2 curated perms r.1).getD perms

/-- Modelled from the spec: a sequence of authorize calls, each either
authorized or denied, threading the permission state. -/
def runRequests (curated : Nat → Bool) (perms : List Permission)
    (reqs : List (Effect × Nat)) : List Permission :=
  reqs.foldl (applyRequest curated) perms

/-- Modelled from the spec: the invariant `current_amount <= limit` for
one optional recurring state (spec section 3). -/
def recurringWithin (limit : Nat) : Option RecurringConfig → Bool
  | none => true
  | some rc => rc.currentAmount ≤ limit

/-- Modelled from the spec: the invariant `current_amount <= limit` for
the recurring state carried by one permission (spec section 3). -/
def Permission.recurringOk : Permission → Bool
  | .sol limit rec => recurringWithin limit rec
  | .solDestination _ limit rec => recurringWithin limit rec
  | .token _ limit rec => recurringWithin limit rec
  | .tokenDestination _ _ limit rec => recurringWithin limit rec
  | .stake limit rec => recurringWithin limit rec
  | _ => true

/-- A successful `checkLimited` always commits a state within the limit,
whatever state it started from. -/
theorem checkLimited_within (limit : Nat) (rec rec2 : Option RecurringConfig)
    (amt now : Nat) (h : checkLimited limit rec amt now = some rec2) :
    recurringWithin limit rec2 = true := by
  cases rec with
  | none =>
    simp only [checkLimited] at h
    split at h
    · cases h; rfl
    · cases h
  | some rc =>
    simp only [checkLimited] at h
    split at h
    · cases h
      exact decide_eq_true ‹_›
    · cases h

/-- A permission produced by a successful `permitEffect` satisfies the
recurring invariant, given the input permission did. -/
theorem permitEffect_recurringOk (now : Nat) (c : Nat → Bool)
    (p p2 : Permission) (e : Effect)
    (hp : p.recurringOk = true) (h : permitEffect now c p e = some p2) :
    p2.recurringOk = true := by
  cases p <;> cases e <;>
    simp only [permitEffect] at h <;>
    (try split at h) <;>
    first
    | exact Option.noConfusion h
    | (simp only [Option.map_eq_some'] at h
       obtain ⟨r2, hr, rfl⟩ := h
       simp only [Permission.recurringOk]
       exact checkLimited_within _ _ _ _ _ hr)
    | (simp only [Option.some.injEq] at h
       subst h
       rfl)

/-- A permission set produced by a successful `authorizeEffect` satisfies
the recurring invariant throughout, given the input set did. -/
theorem authorizeEffect_recurringOk (now : Nat) (c : Nat → Bool)
    (perms perms2 : List Permission) (e : Effect)
    (hp : ∀ p ∈ perms, p.recurringOk = true)
    (h : authorizeEffect now c perms e = some perms2) :
    ∀ p ∈ perms2, p.recurringOk = true := by
  induction perms generalizing perms2 with
  | nil => simp [authorizeEffect] at h
  | cons p rest ih =>
    simp only [authorizeEffect] at h
    cases hpe : permitEffect now c p e with
    | some q =>
      rw [hpe] at h
      simp only [Option.some.injEq] at h
      subst h
      intro r hr
      rcases List.mem_cons.mp hr with rfl | hr
      · exact permitEffect_recurringOk _ _ _ _ _ (hp p (by simp)) hpe
      · exact hp r (by simp [hr])
    | none =>
      rw [hpe] at h
      simp only [Option.map_eq_some'] at h
      obtain ⟨rest2, hrest, rfl⟩ := h
      intro r hr
      rcases List.mem_cons.mp hr with rfl | hr
      · exact hp r (by simp)
      · exact ih rest2 (fun q hq => hp q (by simp [hq])) hrest r hr

/-- One authorize call, authorized or denied, preserves the recurring
invariant. -/
theorem applyRequest_recurringOk (c : Nat → Bool) (perms : List Permission)
    (r : Effect × Nat) (hp : ∀ p ∈ perms, p.recurringOk = true) :
    ∀ p ∈ applyRequest c perms r, p.recurringOk = true := by
  unfold applyRequest
  cases h : authorizeEffect r.2 c perms r.1 with
  | none => simpa using hp
  | some ps2 => simpa using authorizeEffect_recurringOk _ _ _ _ _ hp h

/-- Any sequence of authorize calls preserves the recurring invariant. -/
theorem runRequests_recurringOk (c : Nat → Bool) (reqs : List (Effect × Nat))
    (perms : List Permission) (hp : ∀ p ∈ perms, p.recurringOk = true) :
    ∀ p ∈ runRequests c perms reqs, p.recurringOk = true := by
  induction reqs generalizing perms with
  | nil => simpa [runRequests] using hp
  | cons r rs ih =>
    simp only [runRequests, List.foldl_cons] at *
    exact ih _ (applyRequest_recurringOk c perms r hp)

/-- A request that would push the rolled window over the limit is denied
for a single recurring SOL permission. -/
theorem sol_over_limit_denied (c : Nat → Bool) (limit : Nat)
    (rc : RecurringConfig) (d amt t : Nat)
    (h : limit < (rollWindow t rc).currentAmount + amt) :
    authorizeEffect t c [Permission.sol limit (some rc)]
      (.solTransfer d amt) = none := by
  simp [authorizeEffect, permitEffect, checkLimited, Nat.not_le.mpr h]

/-- Modelled from the spec: authorize the union of all requested effects
of a bundle, threading the recurring state; any denial fails the whole
bundle (spec section 4.3). -/
def authorizeAll (now : Nat) (curated : Nat → Bool) (perms : List Permission)
    (effects : List Effect) : Option (List Permission) :=
  effects.foldl (fun acc e => acc.bind (fun ps => authorizeEffect now curated ps e)) (some perms)

/-- Modelled from the spec: `sign(operations)` packages the requested
effects into a single authorized unit; the PermissionEngine authorizes the
union of all effects before any signature is requested (spec section 4.3).
`cap` is the SigningCapability; the result pairs the produced signature
(`none` when the bundle is rejected) with the permission state after the
call. -/
def signBundle (cap : List Effect → Nat) (now : Nat) (curated : Nat → Bool)
    (perms : List Permission) (effects : List Effect) : Option Nat × List Permission :=
  match authorizeAll now curated perms effects with
  | some perms2 => (some (cap effects), perms2)
  | none => (none, perms)

/-- C1: for every permission set holding recurring configurations, after
any sequence of authorize calls (each either authorized or denied),
`current_amount <= limit` holds at all times; a request whose fulfilment
would push `current_amount` over the limit for the active window is denied
and leaves the recurring state unmutated. -/
theorem recurring_limit_invariant (curated : Nat → Bool)
    (reqs : List (Effect × Nat)) (perms : List Permission)
    (h : ∀ p ∈ perms, p.recurringOk = true) :
    (∀ p ∈ runRequests curated perms reqs, p.recurringOk = true) ∧
    (∀ e t, authorizeEffect t curated perms e = none →
        applyRequest curated perms (e, t) = perms) ∧
    (∀ limit rc d amt t, limit < (rollWindow t rc).currentAmount + amt →
        authorizeEffect t curated [Permission.sol limit (some rc)]
            (.solTransfer d amt) = none ∧
        applyRequest curated [Permission.sol limit (some rc)]
            (.solTransfer d amt, t) = [Permission.sol limit (some rc)]) := by
  refine ⟨runRequests_recurringOk curated reqs perms h, ?_, ?_⟩
  · intro e t hn
    simp [applyRequest, hn]
  · intro limit rc d amt t hlt
    refine ⟨sol_over_limit_denied curated limit rc d amt t hlt, ?_⟩
    simp [applyRequest, sol_over_limit_denied curated limit rc d amt t hlt]

/-- Witness for C1 at a concrete recurring permission and request list. -/
theorem recurring_limit_invariant_witness :
    (∀ p ∈ [Permission.sol 100 (some ⟨10, 0, 0⟩)], p.recurringOk = true) ∧
    (∀ p ∈ runRequests (fun _ => false) [Permission.sol 100 (some ⟨10, 0, 0⟩)]
        [(.solTransfer 1 60, 1), (.solTransfer 1 60, 2), (.solTransfer 1 50, 12)],
      p.recurringOk = true) :=
  ⟨by decide,
   (recurring_limit_invariant (fun _ => false)
      [(.solTransfer 1 60, 1), (.solTransfer 1 60, 2), (.solTransfer 1 50, 12)]
      [Permission.sol 100 (some ⟨10, 0, 0⟩)] (by decide)).1⟩

/-- C2: when `now - last_reset >= window`, the engine first resets
`current_amount` to 0 and `last_reset` to `now` and evaluates the request
against the fresh window; in particular with limit 100, window 10,
last reset 0 and current amount 90, a request of 20 at `now = 5` is denied
leaving the state unmutated, and the same request at `now = 15` is
authorized with `current_amount` becoming 20. -/
theorem window_rollover (c : Nat → Bool) (limit : Nat) (rc : RecurringConfig)
    (now d amt : Nat) (h : rc.window ≤ now - rc.lastReset) :
    (permitEffect now c (.sol limit (some rc)) (.solTransfer d amt)
        = permitEffect now c (.sol limit (some ⟨rc.window, now, 0⟩))
            (.solTransfer d amt)) ∧
    (permitEffect now c (.sol limit (some rc)) (.solTransfer d amt)
        = if amt ≤ limit then some (.sol limit (some ⟨rc.window, now, amt⟩))
          else none) ∧
    (authorizeEffect 5 c [Permission.sol 100 (some ⟨10, 0, 90⟩)]
        (.solTransfer d 20) = none) ∧
    (applyRequest c [Permission.sol 100 (some ⟨10, 0, 90⟩)]
        (.solTransfer d 20, 5) = [Permission.sol 100 (some ⟨10, 0, 90⟩)]) ∧
    (authorizeEffect 15 c [Permission.sol 100 (some ⟨10, 0, 90⟩)]
        (.solTransfer d 20) = some [Permission.sol 100 (some ⟨10, 15, 20⟩)]) := by
  refine ⟨?_, ?_, ?_, ?_, ?_⟩
  · simp [permitEffect, checkLimited, rollWindow, h]
  · simp [permitEffect, checkLimited, rollWindow, h]
  · simp [authorizeEffect, permitEffect, checkLimited, rollWindow]
  · simp [applyRequest, authorizeEffect, permitEffect, checkLimited, rollWindow]
  · simp [authorizeEffect, permitEffect, checkLimited, rollWindow]

/-- Witness for C2: the rollover scenario at `now = 15`. -/
theorem window_rollover_witness :
    (10 : Nat) ≤ 15 - 0 ∧
    authorizeEffect 15 (fun _ => false) [Permission.sol 100 (some ⟨10, 0, 90⟩)]
        (.solTransfer 1 20) = some [Permission.sol 100 (some ⟨10, 15, 20⟩)] :=
  ⟨by decide,
   (window_rollover (fun _ => false) 100 ⟨10, 0, 90⟩ 15 1 20 (by decide)).2.2.2.2⟩

/-- The permission set of the limited spender authority added at
src/src/examples/ed25519_wallet.rs lines 104-110 and
src/src/examples/wallet_operations.rs lines 64-71: a 1 SOL absolute limit
with no recurring window. -/
def spenderPerms : List Permission := [Permission.sol 1000000000 none]

/-- C5: with only an absolute (non-recurring) 1 SOL permission, a request
of 1.5 SOL is denied, a request of 0.9 SOL is authorized, and a subsequent
request of 0.2 SOL in the same session is also authorized: absolute limits
bound each request independently and are not consumed cumulatively. -/
theorem absolute_limit_per_request :
    (authorizeEffect 0 (fun _ => false) spenderPerms
        (.solTransfer 1 1500000000) = none) ∧
    (applyRequest (fun _ => false) spenderPerms
        (.solTransfer 1 1500000000, 0) = spenderPerms) ∧
    (authorizeEffect 0 (fun _ => false) spenderPerms
        (.solTransfer 1 900000000) = some spenderPerms) ∧
    (authorizeEffect 0 (fun _ => false) spenderPerms
        (.solTransfer 2 200000000) = some spenderPerms) ∧
    (runRequests (fun _ => false) spenderPerms
        [(.solTransfer 1 1500000000, 0), (.solTransfer 1 900000000, 0),
         (.solTransfer 2 200000000, 0)] = spenderPerms) := by
  decide

/-- C7: the engine authorizes the union of all effects of a bundle before
any signature is requested; the outcome is all-or-none — on any denial the
bundle is rejected with no signature produced, the permission state (and
so every recurring counter) is left exactly as before, and the signing
capability is never consulted. -/
theorem sign_bundle_all_or_none (cap cap2 : List Effect → Nat) (now : Nat)
    (curated : Nat → Bool) (perms : List Permission) (effects : List Effect) :
    (authorizeAll now curated perms effects = none →
        signBundle cap now curated perms effects = (none, perms) ∧
        signBundle cap now curated perms effects
          = signBundle cap2 now curated perms effects) ∧
    (∀ ps2, authorizeAll now curated perms effects = some ps2 →
        signBundle cap now curated perms effects = (some (cap effects), ps2)) := by
  constructor
  · intro hn
    constructor <;> simp [signBundle, hn]
  · intro ps2 hs
    simp [signBundle, hs]

/-- Witness for C7: a two-transfer bundle whose second effect exceeds the
recurring limit is rejected whole, with the original state kept. -/
theorem sign_bundle_all_or_none_witness :
    authorizeAll 0 (fun _ => false) [Permission.sol 100 (some ⟨10, 0, 0⟩)]
        [.solTransfer 1 60, .solTransfer 1 60] = none ∧
    signBundle (fun _ => 7) 0 (fun _ => false)
        [Permission.sol 100 (some ⟨10, 0, 0⟩)]
        [.solTransfer 1 60, .solTransfer 1 60]
      = (none, [Permission.sol 100 (some ⟨10, 0, 0⟩)]) :=
  ⟨by decide,
   ((sign_bundle_all_or_none (fun _ => 7) (fun _ => 9) 0 (fun _ => false)
      [Permission.sol 100 (some ⟨10, 0, 0⟩)]
      [.solTransfer 1 60, .solTransfer 1 60]).1 (by decide)).1⟩

/-- Modelled from the spec: the three supported authority types
(spec section 3), as used by `AuthorityType::Ed25519`,
`AuthorityType::Secp256k1` and `AuthorityType::Secp256r1` in the
examples. -/
inductive AuthorityType where
  | nativeEd25519 : AuthorityType
  | secp256k1 : AuthorityType
  | secp256r1 : AuthorityType
  deriving DecidableEq, Repr

/-- Modelled from the spec: an AuthorityRecord — role id, authority type,
identity bytes, permission set, replay-protection odometer and the
tombstone flag for logical removal (spec section 3).  The fields mirror
the role data read back by `get_info` at
src/src/examples/wallet_operations.rs lines 109-118. -/
structure AuthorityRecord where
  roleId : Nat
  authorityType : AuthorityType
  identity : List Nat
  permissions : List Permission
  odometer : Nat
  tombstoned : Bool
  deriving DecidableEq, Repr

/-- Modelled from the spec: the per-wallet aggregate — id, ordered
AuthorityRecord list (insertion order = role id order), the next role id
to assign, and the fetched balance snapshot (spec section 3). -/
structure WalletState where
  id : List Nat
  records : List AuthorityRecord
  nextRoleId : Nat
  balance : Nat
  deriving DecidableEq, Repr

/-- Modelled from the spec: the `UpdateAuthorityData` payload used by
`update_authority` at src/src/examples/wallet_operations.rs
lines 134-150: add actions or replace the whole permission set. -/
inductive UpdateAuthorityData where
  | addActions (perms : List Permission) : UpdateAuthorityData
  | replaceAll (perms : List Permission) : UpdateAuthorityData
  deriving DecidableEq, Repr

/-- Modelled from the spec: the authority-management operations a session
submits — add, remove (tombstone) and update
(spec section 4.3). -/
inductive AuthorityOp where
  | add (ty : AuthorityType) (identity : List Nat)
      (perms : List Permission) : AuthorityOp
  | removeById (roleId : Nat) : AuthorityOp
  | update (roleId : Nat) (data : UpdateAuthorityData) : AuthorityOp
  deriving DecidableEq, Repr

/-- Modelled from the spec: removal is logical tombstoning, never physical
deletion; the role id is never reassigned (spec section 3). -/
def tombstoneRecord (roleId : Nat) (r : AuthorityRecord) : AuthorityRecord :=
  if r.roleId = roleId then { r with tombstoned := true } else r

/-- Modelled from the spec: permission mutation of a live record by
add-permission or replace-permissions operations (spec section 3). -/
def updateRecord (roleId : Nat) (data : UpdateAuthorityData)
    (r : AuthorityRecord) : AuthorityRecord :=
  if r.roleId = roleId ∧ r.tombstoned = false then
    match data with
    | .addActions ps => { r with permissions := r.permissions ++ ps }
    | .replaceAll ps => { r with permissions := ps }
  else r

/-- Modelled from the spec: apply one authority-management operation to
the wallet state.  `add` appends a record carrying the next role id and
bumps the counter; `removeById` tombstones; `update` mutates
permissions. -/
def applyOp (w : WalletState) (op : AuthorityOp) : WalletState :=
  match op with
  | .add ty idb ps =>
      { w with records := w.records ++ [⟨w.nextRoleId, ty, idb, ps, 0, false⟩],
               nextRoleId := w.nextRoleId + 1 }
  | .removeById rid => { w with records := w.records.map (tombstoneRecord rid) }
  | .update rid data => { w with records := w.records.map (updateRecord rid data) }

/-- Modelled from the spec: wallet creation binds the first
AuthorityRecord at role id 0 for the creator (spec section 3). -/
def createWallet (id : List Nat) (ty : AuthorityType) (identity : List Nat)
    (perms : List Permission) (balance : Nat) : WalletState :=
  ⟨id, [⟨0, ty, identity, perms, 0, false⟩], 1, balance⟩

/-- Modelled from the spec: a sequence of authority-management
operations. -/
def applyOps (w : WalletState) (ops : List AuthorityOp) : WalletState :=
  ops.foldl applyOp w

/-- The role ids of a wallet's records, in record order. -/
def roleIds (w : WalletState) : List Nat :=
  w.records.map AuthorityRecord.roleId

/-- Tombstoning keeps the role id. -/
theorem tombstoneRecord_roleId (rid : Nat) (r : AuthorityRecord) :
    (tombstoneRecord rid r).roleId = r.roleId := by
  unfold tombstoneRecord
  split <;> rfl

/-- Permission updates keep the role id. -/
theorem updateRecord_roleId (rid : Nat) (data : UpdateAuthorityData)
    (r : AuthorityRecord) : (updateRecord rid data r).roleId = r.roleId := by
  unfold updateRecord
  split
  · cases data <;> rfl
  · rfl

/-- Mapping a role-id-preserving function over the records does not
change the role id list. -/
theorem roleIds_map_eq (f : AuthorityRecord → AuthorityRecord)
    (hf : ∀ r, (f r).roleId = r.roleId) (l : List AuthorityRecord) :
    (l.map f).map AuthorityRecord.roleId = l.map AuthorityRecord.roleId := by
  induction l with
  | nil => rfl
  | cons r rest ih => simp [hf, ih]

/-- The wallet invariant: role ids are strictly increasing in record
order and all sit below the next id to assign. -/
def walletInv (w : WalletState) : Prop :=
  (roleIds w).Sorted (· < ·) ∧ ∀ r ∈ w.records, r.roleId < w.nextRoleId

/-- Each authority-management operation preserves the wallet
invariant. -/
theorem applyOp_inv (w : WalletState) (op : AuthorityOp)
    (h : walletInv w) : walletInv (applyOp w op) := by
  obtain ⟨hs, hb⟩ := h
  cases op with
  | add ty idb ps =>
    constructor
    · simp only [roleIds, applyOp, List.map_append, List.map_cons, List.map_nil]
      rw [List.Sorted, List.pairwise_append]
      refine ⟨hs, by simp, ?_⟩
      intro a ha b hb2
      simp only [List.mem_singleton] at hb2
      subst hb2
      simp only [roleIds, List.mem_map] at ha
      obtain ⟨r, hr, rfl⟩ := ha
      exact hb r hr
    · intro r hr
      simp only [applyOp, List.mem_append, List.mem_singleton] at hr
      rcases hr with hr | rfl
      · exact Nat.lt_succ_of_lt (hb r hr)
      · exact Nat.lt_succ_self _
  | removeById rid =>
    constructor
    · show ((w.records.map (tombstoneRecord rid)).map AuthorityRecord.roleId).Sorted (· < ·)
      rw [roleIds_map_eq _ (tombstoneRecord_roleId rid)]
      exact hs
    · intro r hr
      simp only [applyOp, List.mem_map] at hr
      obtain ⟨r0, hr0, rfl⟩ := hr
      rw [tombstoneRecord_roleId]
      exact hb r0 hr0
  | update rid data =>
    constructor
    · show ((w.records.map (updateRecord rid data)).map AuthorityRecord.roleId).Sorted (· < ·)
      rw [roleIds_map_eq _ (updateRecord_roleId rid data)]
      exact hs
    · intro r hr
      simp only [applyOp, List.mem_map] at hr
      obtain ⟨r0, hr0, rfl⟩ := hr
      rw [updateRecord_roleId]
      exact hb r0 hr0

/-- Every operation sequence preserves the wallet invariant. -/
theorem applyOps_inv (ops : List AuthorityOp) (w : WalletState)
    (h : walletInv w) : walletInv (applyOps w ops) := by
  induction ops generalizing w with
  | nil => exact h
  | cons op rest ih => exact ih (applyOp w op) (applyOp_inv w op h)

/-- One operation never drops or renames existing role ids: the old role
id list is a prefix of the new one. -/
theorem roleIds_applyOp (w : WalletState) (op : AuthorityOp) :
    roleIds w <+: roleIds (applyOp w op) := by
  cases op with
  | add ty idb ps =>
    exact ⟨[w.nextRoleId], by simp [roleIds, applyOp]⟩
  | removeById rid =>
    refine ⟨[], ?_⟩
    show roleIds w ++ [] = (w.records.map (tombstoneRecord rid)).map AuthorityRecord.roleId
    rw [roleIds_map_eq _ (tombstoneRecord_roleId rid), List.append_nil]
    rfl
  | update rid data =>
    refine ⟨[], ?_⟩
    show roleIds w ++ [] = (w.records.map (updateRecord rid data)).map AuthorityRecord.roleId
    rw [roleIds_map_eq _ (updateRecord_roleId rid data), List.append_nil]
    rfl

/-- An operation sequence never drops or renames existing role ids. -/
theorem roleIds_applyOps (ops : List AuthorityOp) (w : WalletState) :
    roleIds w <+: roleIds (applyOps w ops) := by
  induction ops generalizing w with
  | nil => exact ⟨[], List.append_nil _⟩
  | cons op rest ih => exact (roleIds_applyOp w op).trans (ih (applyOp w op))

/-- The freshly created wallet satisfies the invariant. -/
theorem createWallet_inv (id identity : List Nat) (ty : AuthorityType)
    (perms : List Permission) (balance : Nat) :
    walletInv (createWallet id ty identity perms balance) := by
  constructor
  · simp [roleIds, createWallet]
  · intro r hr
    simp only [createWallet, List.mem_singleton] at hr
    subst hr
    exact Nat.zero_lt_one

/-- C6: for every wallet and every sequence of authority-management
operations, the role ids of the AuthorityRecords are strictly increasing
in assignment order, contain no duplicate (so a tombstoned role id is
never reassigned by a later add), stay below the next id to assign, and
no operation ever drops or renames an existing role id. -/
theorem role_ids_monotone_never_reused (id identity : List Nat)
    (ty : AuthorityType) (perms : List Permission) (balance : Nat)
    (ops ops2 : List AuthorityOp) :
    (roleIds (applyOps (createWallet id ty identity perms balance) ops)).Sorted (· < ·) ∧
    (roleIds (applyOps (createWallet id ty identity perms balance) ops)).Nodup ∧
    (∀ r ∈ (applyOps (createWallet id ty identity perms balance) ops).records,
        r.roleId < (applyOps (createWallet id ty identity perms balance) ops).nextRoleId) ∧
    roleIds (applyOps (createWallet id ty identity perms balance) ops)
      <+: roleIds (applyOps (createWallet id ty identity perms balance) (ops ++ ops2)) := by
  obtain ⟨hs, hb⟩ := applyOps_inv ops _
    (createWallet_inv id identity ty perms balance)
  refine ⟨hs, hs.nodup, hb, ?_⟩
  simp only [applyOps, List.foldl_append]
  exact roleIds_applyOps ops2 _

/-- Modelled from the spec: a WalletSession — a live handle binding one
wallet state, the active role id and the active signing capability
(spec sections 2 and 4.3).  Capabilities are abstracted to `Nat`
handles. -/
structure WalletSession where
  wallet : WalletState
  activeRoleId : Nat
  capability : Nat
  deriving DecidableEq, Repr

/-- Modelled from the spec: `switch_authority(role_id, new_capability)`
(called at src/src/examples/ed25519_wallet.rs line 128 and
src/src/examples/secp256k1_wallet.rs line 144) validates that the role id
exists and is not tombstoned, then re-binds the session's capability and
active role id; it does not mutate wallet state (spec sections 4.3
and 9). -/
def switchAuthority (s : WalletSession) (roleId : Nat) (newCap : Nat) :
    Option WalletSession :=
  if s.wallet.records.any (fun r => r.roleId == roleId && !r.tombstoned) then
    some { s with activeRoleId := roleId, capability := newCap }
  else none

/-- C8: a successful switch_authority only re-binds the active capability
and active role id; every field of the wallet state (id, record list with
its permission sets and replay counters, next role id, balance snapshot)
is unchanged, and success requires a live (non-tombstoned) record with
that role id. -/
theorem switch_authority_pure_rebind (s : WalletSession) (rid cap : Nat)
    (s2 : WalletSession) (h : switchAuthority s rid cap = some s2) :
    s2.wallet = s.wallet ∧ s2.wallet.id = s.wallet.id ∧
    s2.wallet.records = s.wallet.records ∧
    s2.wallet.nextRoleId = s.wallet.nextRoleId ∧
    s2.wallet.balance = s.wallet.balance ∧
    s2.activeRoleId = rid ∧ s2.capability = cap ∧
    (∃ r ∈ s.wallet.records, r.roleId = rid ∧ r.tombstoned = false) := by
  unfold switchAuthority at h
  split at h
  case isTrue hg =>
    simp only [Option.some.injEq] at h
    subst h
    refine ⟨rfl, rfl, rfl, rfl, rfl, rfl, rfl, ?_⟩
    simpa [List.any_eq_true, Bool.and_eq_true, beq_iff_eq,
      Bool.not_eq_true'] using hg
  case isFalse => exact Option.noConfusion h

/-- A concrete two-record session for the C8 witness. -/
def sessionW : WalletSession :=
  ⟨⟨List.replicate 32 9,
    [⟨0, .nativeEd25519, List.replicate 32 0, [Permission.all], 0, false⟩,
     ⟨1, .nativeEd25519, List.replicate 32 1, spenderPerms, 3, false⟩],
    2, 5000⟩, 0, 0⟩

/-- Witness for C8 at the concrete session: switching to role 1 keeps the
wallet state. -/
theorem switch_authority_pure_rebind_witness :
    switchAuthority sessionW 1 42
        = some { sessionW with activeRoleId := 1, capability := 42 } ∧
    ({ sessionW with activeRoleId := 1, capability := 42 } : WalletSession).wallet
        = sessionW.wallet :=
  ⟨by decide,
   (switch_authority_pure_rebind sessionW 1 42
      { sessionW with activeRoleId := 1, capability := 42 } (by decide)).1⟩

/-- Modelled from the spec: the two batch strategies, `Simple` and
`BinarySearchFailures` (spec section 3; selected at
src/src/examples/multi_wallet_manager.rs lines 94 and 105). -/
inductive BatchStrategy where
  | simple : BatchStrategy
  | binarySearchFailures : BatchStrategy
  deriving DecidableEq, Repr

/-- Modelled from the spec: `BatchConfig` — strategy, maximum accounts per
batch, maximum transaction size in bytes, retry budget, retry delay and
worker-thread count (spec section 3; built at
src/src/examples/multi_wallet_manager.rs lines 93-109). -/
structure BatchConfig where
  strategy : BatchStrategy
  maxAccountsPerBatch : Nat
  maxTransactionSize : Nat
  maxRetries : Nat
  retryDelay : Nat
  numThreads : Nat
  deriving DecidableEq, Repr

/-- Modelled from the spec: `BatchResult` — successful entries pair a
signature with the member wallet ids of the submitted batch; failed
entries carry the wallet id (the attached error is abstracted away)
(spec section 3; consumed at src/src/examples/multi_wallet_manager.rs
lines 204-240).  Wallet ids are abstracted to `Nat`. -/
structure BatchResult where
  successful : List (Nat × List Nat)
  failed : List Nat
  deriving DecidableEq, Repr

/-- All wallet ids reported successful, in report order. -/
def BatchResult.successfulIds (res : BatchResult) : List Nat :=
  (res.successful.map Prod.snd).flatten

/-- Merge two batch results, keeping report order. -/
def mergeResult (a b : BatchResult) : BatchResult :=
  ⟨a.successful ++ b.successful, a.failed ++ b.failed⟩

/-- Modelled from the spec: greedy-sequential packing — append members to
the current batch until either the member-count bound or the byte-size
bound would be exceeded, then start a new batch (spec section 4.4).
`cur` is the current batch accumulated in reverse, `curSize` its
serialized size under `opSize`. -/
def planGo (maxAcc maxSize : Nat) (opSize : Nat → Nat) :
    List Nat → List Nat → Nat → List (List Nat)
  | [], cur, _ => if cur.isEmpty then [] else [cur.reverse]
  | w :: ws, cur, curSize =>
    if cur.isEmpty then planGo maxAcc maxSize opSize ws [w] (opSize w)
    else if cur.length + 1 ≤ maxAcc ∧ curSize + opSize w ≤ maxSize then
      planGo maxAcc maxSize opSize ws (w :: cur) (curSize + opSize w)
    else cur.reverse :: planGo maxAcc maxSize opSize ws [w] (opSize w)

/-- Modelled from the spec: the BatchPlanner — split the input wallet list
into an ordered sequence of size-bounded batches, keeping input order
(spec section 4.4). -/
def planBatches (maxAcc maxSize : Nat) (opSize : Nat → Nat)
    (wallets : List Nat) : List (List Nat) :=
  planGo maxAcc maxSize opSize wallets [] 0

/-- Greedy packing emits every input wallet exactly once, in order. -/
theorem planGo_join (maxAcc maxSize : Nat) (opSize : Nat → Nat)
    (l : List Nat) : ∀ cur curSize,
    (planGo maxAcc maxSize opSize l cur curSize).flatten = cur.reverse ++ l := by
  induction l with
  | nil =>
    intro cur curSize
    cases cur <;> simp [planGo]
  | cons w ws ih =>
    intro cur curSize
    cases cur with
    | nil => simp [planGo, ih]
    | cons c cs =>
      simp only [planGo, List.isEmpty_cons, Bool.false_eq_true, if_false]
      split
      · rw [ih]
        simp
      · simp only [List.flatten_cons]
        rw [ih]
        simp

/-- The planned batches concatenate back to the input wallet list. -/
theorem planBatches_join (maxAcc maxSize : Nat) (opSize : Nat → Nat)
    (wallets : List Nat) :
    (planBatches maxAcc maxSize opSize wallets).flatten = wallets := by
  simpa using planGo_join maxAcc maxSize opSize wallets [] 0

/-- Modelled from the spec: each submission attempt is retried up to
`max_retries` times before being treated as a final failure (spec
section 4.5).  `submit` is the ledger submission oracle: given the attempt
index and the batch's wallet ids it returns the signature on success. -/
def trySubmit (submit : Nat → List Nat → Option Nat) (retries : Nat)
    (batch : List Nat) : Option Nat :=
  (List.range (retries + 1)).findSome? (fun i => submit i batch)

/-- Modelled from the spec: the `Simple` strategy — a batch whose
submission fails (after retries) is marked failed for every member
(spec section 4.5). -/
def execSimple (submit : Nat → List Nat → Option Nat) (retries : Nat)
    (batch : List Nat) : BatchResult :=
  match trySubmit submit retries batch with
  | some sig => ⟨[(sig, batch)], []⟩
  | none => ⟨[], batch⟩

/-- Modelled from the spec: the `BinarySearchFailures` strategy — on
failure split the batch at its midpoint into two sub-batches and resubmit
each recursively with the same retry budget, until batches of size 1 are
isolated (spec section 4.5).  `fuel` is a structural bound on the
recursion; `batch.length ≤ fuel + 1` always holds along the recursion when
started with `fuel = batch.length`, so the fuel-exhausted base case
behaves exactly like the size-one leaf. -/
def execBinaryGo (submit : Nat → List Nat → Option Nat) (retries : Nat) :
    Nat → List Nat → BatchResult
  | 0, batch =>
    match trySubmit submit retries batch with
    | some sig => ⟨[(sig, batch)], []⟩
    | none => ⟨[], batch⟩
  | fuel + 1, batch =>
    match trySubmit submit retries batch with
    | some sig => ⟨[(sig, batch)], []⟩
    | none =>
      if batch.length ≤ 1 then ⟨[], batch⟩
      else
        mergeResult
          (execBinaryGo submit retries fuel (batch.take (batch.length / 2)))
          (execBinaryGo submit retries fuel (batch.drop (batch.length / 2)))

/-- Modelled from the spec: entry point of the `BinarySearchFailures`
batch recursion. -/
def execBinary (submit : Nat → List Nat → Option Nat) (retries : Nat)
    (batch : List Nat) : BatchResult :=
  execBinaryGo submit retries batch.length batch

/-- Modelled from the spec: execute one planned batch under the
configured strategy. -/
def execOne (cfg : BatchConfig) (submit : Nat → List Nat → Option Nat)
    (batch : List Nat) : BatchResult :=
  match cfg.strategy with
  | .simple => execSimple submit cfg.maxRetries batch
  | .binarySearchFailures => execBinary submit cfg.maxRetries batch

/-- Modelled from the spec: execute the planned batches in order, merging
the per-batch results (spec section 4.5; worker threads only schedule
whole batches and the per-worker buffers are merged afterwards — spec
section 5 — so the set content is that of the sequential order). -/
def execBatches (cfg : BatchConfig) (submit : Nat → List Nat → Option Nat) :
    List (List Nat) → BatchResult
  | [] => ⟨[], []⟩
  | b :: bs => mergeResult (execOne cfg submit b) (execBatches cfg submit bs)

/-- Modelled from the spec: `BatchExecutor.execute` — plan the input
wallet list into size-bounded batches, then execute them (spec
sections 4.4 and 4.5; driven at src/src/examples/multi_wallet_manager.rs
lines 187-199). -/
def executeBatch (cfg : BatchConfig) (opSize : Nat → Nat)
    (submit : Nat → List Nat → Option Nat) (wallets : List Nat) : BatchResult :=
  execBatches cfg submit
    (planBatches cfg.maxAccountsPerBatch cfg.maxTransactionSize opSize wallets)

/-- The ids of a merged result are the merged ids. -/
theorem mergeResult_ids (a b : BatchResult) :
    (mergeResult a b).successfulIds = a.successfulIds ++ b.successfulIds ∧
    (mergeResult a b).failed = a.failed ++ b.failed := by
  constructor
  · simp [mergeResult, BatchResult.successfulIds]
  · rfl

/-- The `Simple` strategy partitions one batch. -/
theorem execSimple_perm (submit : Nat → List Nat → Option Nat)
    (retries : Nat) (batch : List Nat) :
    ((execSimple submit retries batch).successfulIds
      ++ (execSimple submit retries batch).failed).Perm batch := by
  cases h : trySubmit submit retries batch with
  | some sig => simp [execSimple, h, BatchResult.successfulIds]
  | none => simp [execSimple, h, BatchResult.successfulIds]

/-- The `BinarySearchFailures` recursion partitions one batch, whatever
the fuel. -/
theorem execBinaryGo_perm (submit : Nat → List Nat → Option Nat)
    (retries : Nat) : ∀ (fuel : Nat) (batch : List Nat),
    ((execBinaryGo submit retries fuel batch).successfulIds
      ++ (execBinaryGo submit retries fuel batch).failed).Perm batch := by
  intro fuel
  induction fuel with
  | zero =>
    intro batch
    cases h : trySubmit submit retries batch with
    | some sig => simp [execBinaryGo, h, BatchResult.successfulIds]
    | none => simp [execBinaryGo, h, BatchResult.successfulIds]
  | succ fuel ih =>
    intro batch
    cases h : trySubmit submit retries batch with
    | some sig => simp [execBinaryGo, h, BatchResult.successfulIds]
    | none =>
      simp only [execBinaryGo, h]
      by_cases h1 : batch.length ≤ 1
      · simp [h1, BatchResult.successfulIds]
      · simp only [h1, if_false]
        have hl := ih (batch.take (batch.length / 2))
        have hr := ih (batch.drop (batch.length / 2))
        obtain ⟨hs, hf⟩ := mergeResult_ids
          (execBinaryGo submit retries fuel (batch.take (batch.length / 2)))
          (execBinaryGo submit retries fuel (batch.drop (batch.length / 2)))
        rw [hs, hf]
        refine (List.perm_iff_count.mpr fun a => ?_).trans
          ((List.take_append_drop (batch.length / 2) batch) ▸ (hl.append hr))
        simp only [List.count_append]
        omega

/-- Each strategy partitions one batch. -/
theorem execOne_perm (cfg : BatchConfig) (submit : Nat → List Nat → Option Nat)
    (batch : List Nat) :
    ((execOne cfg submit batch).successfulIds
      ++ (execOne cfg submit batch).failed).Perm batch := by
  cases hst : cfg.strategy with
  | simple =>
    simp only [execOne, hst]
    exact execSimple_perm submit cfg.maxRetries batch
  | binarySearchFailures =>
    simp only [execOne, hst]
    exact execBinaryGo_perm submit cfg.maxRetries batch.length batch

/-- Executing a batch list partitions its concatenation. -/
theorem execBatches_perm (cfg : BatchConfig)
    (submit : Nat → List Nat → Option Nat) (bs : List (List Nat)) :
    ((execBatches cfg submit bs).successfulIds
      ++ (execBatches cfg submit bs).failed).Perm bs.flatten := by
  induction bs with
  | nil => simp [execBatches, BatchResult.successfulIds]
  | cons b rest ih =>
    simp only [execBatches, List.flatten_cons]
    obtain ⟨hs, hf⟩ := mergeResult_ids (execOne cfg submit b) (execBatches cfg submit rest)
    rw [hs, hf]
    refine (List.perm_iff_count.mpr fun a => ?_).trans
      ((execOne_perm cfg submit b).append ih)
    simp only [List.count_append]
    omega

/-- C3: for every input wallet list (as a set: no duplicate ids), every
BatchConfig and every submission oracle, the BatchResult places each
input wallet id in exactly one of the successful and failed lists taken
together: the two lists concatenate to a permutation of the input, hold
no duplicate, cover every input id and share none. -/
theorem batch_result_partitions (cfg : BatchConfig) (opSize : Nat → Nat)
    (submit : Nat → List Nat → Option Nat) (wallets : List Nat)
    (h : wallets.Nodup) :
    ((executeBatch cfg opSize submit wallets).successfulIds
      ++ (executeBatch cfg opSize submit wallets).failed).Perm wallets ∧
    ((executeBatch cfg opSize submit wallets).successfulIds
      ++ (executeBatch cfg opSize submit wallets).failed).Nodup ∧
    (∀ x, x ∈ wallets ↔
      (x ∈ (executeBatch cfg opSize submit wallets).successfulIds ∨
       x ∈ (executeBatch cfg opSize submit wallets).failed)) ∧
    (∀ x, ¬(x ∈ (executeBatch cfg opSize submit wallets).successfulIds ∧
            x ∈ (executeBatch cfg opSize submit wallets).failed)) := by
  have hp : ((executeBatch cfg opSize submit wallets).successfulIds
      ++ (executeBatch cfg opSize submit wallets).failed).Perm wallets := by
    have hq := execBatches_perm cfg submit
      (planBatches cfg.maxAccountsPerBatch cfg.maxTransactionSize opSize wallets)
    rwa [planBatches_join] at hq
  have hn : ((executeBatch cfg opSize submit wallets).successfulIds
      ++ (executeBatch cfg opSize submit wallets).failed).Nodup :=
    (hp.nodup_iff).mpr h
  refine ⟨hp, hn, ?_, ?_⟩
  · intro x
    exact ⟨fun hx => List.mem_append.mp (hp.mem_iff.mpr hx),
           fun hx => hp.mem_iff.mp (List.mem_append.mpr hx)⟩
  · intro x hx
    exact (List.nodup_append.mp hn).2.2 hx.1 hx.2

/-- Witness for C3 at a concrete config, oracle and wallet list. -/
theorem batch_result_partitions_witness :
    ([1, 2, 3] : List Nat).Nodup ∧
    ((executeBatch ⟨.simple, 2, 1000, 0, 0, 1⟩ (fun _ => 1)
        (fun _ b => if b.contains 2 then none else some 0) [1, 2, 3]).successfulIds
      ++ (executeBatch ⟨.simple, 2, 1000, 0, 0, 1⟩ (fun _ => 1)
        (fun _ b => if b.contains 2 then none else some 0) [1, 2, 3]).failed).Perm
      [1, 2, 3] :=
  ⟨by decide,
   (batch_result_partitions ⟨.simple, 2, 1000, 0, 0, 1⟩ (fun _ => 1)
      (fun _ b => if b.contains 2 then none else some 0) [1, 2, 3] (by decide)).1⟩

/-- Modelled from the spec: the synthetic submitter of the
BinarySearchFailures test property — it fails a batch exactly when the
batch contains a member of the fixed failing subset `S`, and succeeds
otherwise, deterministically across attempts (spec section 8). -/
def sSubmit (S : List Nat) : Nat → List Nat → Option Nat :=
  fun _ batch => if batch.all (fun w => !(decide (w ∈ S))) then some 0 else none

/-- A constantly-none chooser finds nothing. -/
theorem findSome?_none (l : List Nat) :
    (l.findSome? (fun _ => (none : Option Nat))) = none := by
  induction l with
  | nil => rfl
  | cons x xs ih => simp [List.findSome?_cons, ih]

/-- Retrying the deterministic synthetic submitter never changes its
verdict. -/
theorem trySubmit_sSubmit (S : List Nat) (r : Nat) (batch : List Nat) :
    trySubmit (sSubmit S) r batch
      = if batch.all (fun w => !(decide (w ∈ S))) then some 0 else none := by
  by_cases hc : batch.all (fun w => !(decide (w ∈ S))) = true
  · simp [trySubmit, sSubmit, hc, List.range_succ_eq_map, List.findSome?_cons]
  · simp only [Bool.not_eq_true] at hc
    simp [trySubmit, sSubmit, hc, findSome?_none]

/-- A batch disjoint from `S` contains no member of `S`. -/
theorem filter_mem_nil (S : List Nat) (batch : List Nat)
    (hall : batch.all (fun w => !(decide (w ∈ S))) = true) :
    batch.filter (fun w => decide (w ∈ S)) = [] := by
  rw [List.filter_eq_nil_iff]
  intro a ha
  have hm := List.all_eq_true.mp hall a ha
  simp_all

/-- A batch of size at most one that intersects `S` is contained in
`S`. -/
theorem leaf_filter_eq (S : List Nat) (batch : List Nat)
    (h1 : batch.length ≤ 1)
    (hall : batch.all (fun w => !(decide (w ∈ S))) = false) :
    batch.filter (fun w => decide (w ∈ S)) = batch := by
  cases batch with
  | nil => simp at hall
  | cons w ws =>
    cases ws with
    | nil =>
      simp only [List.all_cons, List.all_nil, Bool.and_true,
        Bool.not_eq_false'] at hall
      simp [List.filter_cons, hall]
    | cons v vs => simp at h1

/-- Under the synthetic submitter, the binary-search recursion isolates
exactly the members of `S`, in input order. -/
theorem execBinaryGo_failed_filter (S : List Nat) (retries : Nat) :
    ∀ (fuel : Nat) (batch : List Nat), batch.length ≤ fuel + 1 →
      (execBinaryGo (sSubmit S) retries fuel batch).failed
        = batch.filter (fun w => decide (w ∈ S)) := by
  intro fuel
  induction fuel with
  | zero =>
    intro batch hlen
    simp only [execBinaryGo, trySubmit_sSubmit]
    by_cases hall : batch.all (fun w => !(decide (w ∈ S))) = true
    · simp [hall, filter_mem_nil S batch hall]
    · simp only [Bool.not_eq_true] at hall
      simp [hall, leaf_filter_eq S batch hlen hall]
  | succ fuel ih =>
    intro batch hlen
    simp only [execBinaryGo, trySubmit_sSubmit]
    by_cases hall : batch.all (fun w => !(decide (w ∈ S))) = true
    · simp [hall, filter_mem_nil S batch hall]
    · simp only [Bool.not_eq_true] at hall
      simp only [hall, Bool.false_eq_true, if_false]
      by_cases h1 : batch.length ≤ 1
      · simp [h1, leaf_filter_eq S batch h1 hall]
      · simp only [h1, if_false]
        have ht := ih (batch.take (batch.length / 2))
          (by simp only [List.length_take]; omega)
        have hd := ih (batch.drop (batch.length / 2))
          (by simp only [List.length_drop]; omega)
        rw [(mergeResult_ids _ _).2, ht, hd, ← List.filter_append,
          List.take_append_drop]

/-- Under the synthetic submitter and the BinarySearchFailures strategy,
executing any batch list fails exactly the members of `S`, in order. -/
theorem execBatches_failed_filter (cfg : BatchConfig) (S : List Nat)
    (bs : List (List Nat)) (hstrat : cfg.strategy = .binarySearchFailures) :
    (execBatches cfg (sSubmit S) bs).failed
      = bs.flatten.filter (fun w => decide (w ∈ S)) := by
  induction bs with
  | nil => simp [execBatches]
  | cons b rest ih =>
    simp only [execBatches, List.flatten_cons]
    rw [(mergeResult_ids _ _).2, ih, List.filter_append]
    congr 1
    simp only [execOne, hstrat, execBinary]
    exact execBinaryGo_failed_filter S cfg.maxRetries b.length b (Nat.le_succ _)

/-- C4: under the BinarySearchFailures strategy, for every wallet list
and every fixed subset `S` of it on which the submitter deterministically
fails (succeeding on batches disjoint from `S`), the failed list equals
exactly the input wallets lying in `S` — wherever the members of `S` sit
in the input order — and is a permutation of `S`. -/
theorem binary_search_failures_exact (cfg : BatchConfig) (opSize : Nat → Nat)
    (wallets S : List Nat) (hstrat : cfg.strategy = .binarySearchFailures)
    (hsub : ∀ s ∈ S, s ∈ wallets) (hS : S.Nodup) (hW : wallets.Nodup) :
    (executeBatch cfg opSize (sSubmit S) wallets).failed
        = wallets.filter (fun w => decide (w ∈ S)) ∧
    ((executeBatch cfg opSize (sSubmit S) wallets).failed).Perm S := by
  have h1 : (executeBatch cfg opSize (sSubmit S) wallets).failed
      = wallets.filter (fun w => decide (w ∈ S)) := by
    rw [executeBatch, execBatches_failed_filter cfg S _ hstrat, planBatches_join]
  refine ⟨h1, ?_⟩
  rw [h1]
  refine (List.perm_ext_iff_of_nodup (hW.filter _) hS).mpr fun a => ?_
  simp only [List.mem_filter, decide_eq_true_eq]
  exact ⟨fun hm => hm.2, fun hm => ⟨hsub a hm, hm⟩⟩

/-- Witness for C4: wallets 1..4 with failing subset containing 3 in the
middle of the input. -/
theorem binary_search_failures_exact_witness :
    (∀ s ∈ ([3] : List Nat), s ∈ ([1, 2, 3, 4] : List Nat)) ∧
    (executeBatch ⟨.binarySearchFailures, 2, 1000, 1, 0, 1⟩ (fun _ => 1)
        (sSubmit [3]) [1, 2, 3, 4]).failed
      = ([1, 2, 3, 4] : List Nat).filter (fun w => decide (w ∈ ([3] : List Nat))) :=
  ⟨by decide,
   (binary_search_failures_exact ⟨.binarySearchFailures, 2, 1000, 1, 0, 1⟩
      (fun _ => 1) [1, 2, 3, 4] [3] rfl (by decide) (by decide) (by decide)).1⟩

/-- Modelled from the spec: identity encoding length fixed per authority
type — 32, 64 and 33 bytes respectively (spec section 3). -/
def identityLen : AuthorityType → Nat
  | .nativeEd25519 => 32
  | .secp256k1 => 64
  | .secp256r1 => 33

/-- Modelled from the spec: signature artifact shape — 64 bytes r‖s for
native and secp256r1 schemes, 65 bytes recoverable for secp256k1 schemes
(spec section 4.1; the closure types `[u8; 65]` at
src/src/examples/secp256k1_wallet.rs line 213 and `[u8; 64]` at
src/src/examples/secp256r1_wallet.rs line 211 agree). -/
def signatureLen : AuthorityType → Nat
  | .nativeEd25519 => 64
  | .secp256k1 => 65
  | .secp256r1 => 64

/-- Modelled from the spec: the claimed acceptance rule — `add_authority`
accepts an identity for a given type exactly when its length equals that
type's fixed identity encoding length. -/
def specAcceptsIdentity (t : AuthorityType) (idb : List Nat) : Bool :=
  idb.length == identityLen t

/-- From the source: the identity the secp256k1 example actually passes to
`add_authority` — the 64-byte uncompressed public key with the `0x04`
prefix prepended, 65 bytes total (src/src/examples/secp256k1_wallet.rs
lines 118-121, submitted at line 132 with success expected). -/
def prefixedUncompressedKey (pk : List Nat) : List Nat := 4 :: pk

/-- The amended acceptance rule: Ed25519 and secp256r1 identities as the
spec states; for secp256k1 `add_authority` accepts the 65-byte
`0x04`-prefixed uncompressed key that the repository's own example
submits. -/
def acceptsIdentity (t : AuthorityType) (idb : List Nat) : Bool :=
  match t with
  | .secp256k1 => idb.length == 65 && idb.head? == some 4
  | _ => idb.length == identityLen t

/-- Counterexample to C9 as stated: the secp256k1 identity built and
successfully submitted by the repository's example is 65 bytes long, so
an acceptance rule demanding exactly the 64-byte identity encoding length
would reject the repository's own call. -/
theorem identity_exact_length_counterexample :
    (prefixedUncompressedKey (List.replicate 64 0)).length = 65 ∧
    identityLen AuthorityType.secp256k1 = 64 ∧
    specAcceptsIdentity AuthorityType.secp256k1
      (prefixedUncompressedKey (List.replicate 64 0)) = false := by
  decide

/-- C9 (amended): identity encoding lengths are 32, 64 and 33 bytes for
NativeEd25519, Secp256k1 and Secp256r1, signature shapes are 64, 65 and
64 bytes; `add_authority` accepts a NativeEd25519 identity exactly at 32
bytes and a Secp256r1 identity exactly at 33 bytes, while for Secp256k1
it accepts the 65-byte `0x04`-prefixed uncompressed form of the 64-byte
key, as the example submits. -/
theorem identity_and_signature_shapes (pk : List Nat) (h : pk.length = 64) :
    identityLen .nativeEd25519 = 32 ∧ identityLen .secp256k1 = 64 ∧
    identityLen .secp256r1 = 33 ∧
    signatureLen .nativeEd25519 = 64 ∧ signatureLen .secp256k1 = 65 ∧
    signatureLen .secp256r1 = 64 ∧
    acceptsIdentity .secp256k1 (prefixedUncompressedKey pk) = true ∧
    (∀ idb : List Nat, acceptsIdentity .nativeEd25519 idb = true ↔
      idb.length = 32) ∧
    (∀ idb : List Nat, acceptsIdentity .secp256r1 idb = true ↔
      idb.length = 33) := by
  refine ⟨rfl, rfl, rfl, rfl, rfl, rfl, ?_, ?_, ?_⟩
  · simp [acceptsIdentity, prefixedUncompressedKey, h]
  · intro idb
    simp [acceptsIdentity, identityLen]
  · intro idb
    simp [acceptsIdentity, identityLen]

/-- Witness for C9 at a concrete 64-byte key. -/
theorem identity_and_signature_shapes_witness :
    (List.replicate 64 0 : List Nat).length = 64 ∧
    acceptsIdentity .secp256k1
      (prefixedUncompressedKey (List.replicate 64 0)) = true :=
  ⟨by decide,
   (identity_and_signature_shapes (List.replicate 64 0)
      (by decide)).2.2.2.2.2.2.1⟩

/-- The 65-byte recoverable signature value produced by the secp256k1
signing closure (`[u8; 65]`, src/src/examples/secp256k1_wallet.rs
line 213). -/
abbrev Sig65 := {l : List Nat // l.length = 65}

/-- From the source: the signing closure installed by
`create_secp256k1_client_role` (src/src/examples/secp256k1_wallet.rs
lines 213-218): copy the first 32 bytes of the payload into the message
hash and sign that hash; a payload shorter than 32 bytes panics on the
slice, modelled as `none`.  `signHash` models
`secp_wallet.sign_hash_sync`, which returns the 65-byte recoverable
signature. -/
def secp256k1SigningFn (signHash : List Nat → Sig65) (payload : List Nat) :
    Option Sig65 :=
  if 32 ≤ payload.length then some (signHash (payload.take 32)) else none

/-- C10: for every payload of at least 32 bytes, the secp256k1 signing
closure signs exactly the first 32 bytes of the payload as the message
hash and returns a 65-byte recoverable signature; two payloads agreeing
on their first 32 bytes yield the same signature, and a payload shorter
than 32 bytes makes the closure panic (modelled as `none`). -/
theorem secp256k1_signs_first_32 (signHash : List Nat → Sig65)
    (p1 p2 : List Nat) (h1 : 32 ≤ p1.length) (heq : p1.take 32 = p2.take 32) :
    secp256k1SigningFn signHash p1 = some (signHash (p1.take 32)) ∧
    secp256k1SigningFn signHash p1 = secp256k1SigningFn signHash p2 ∧
    (∀ s, secp256k1SigningFn signHash p1 = some s → s.val.length = 65) ∧
    (∀ q : List Nat, q.length < 32 → secp256k1SigningFn signHash q = none) := by
  have h2 : 32 ≤ p2.length := by
    have hlen : (p1.take 32).length = (p2.take 32).length := by rw [heq]
    simp only [List.length_take] at hlen
    omega
  refine ⟨?_, ?_, ?_, ?_⟩
  · simp [secp256k1SigningFn, h1]
  · simp [secp256k1SigningFn, h1, h2, heq]
  · intro s _
    exact s.2
  · intro q hq
    simp [secp256k1SigningFn, Nat.not_le.mpr hq]

/-- A concrete hash signer for the C10 witness. -/
def signHashW : List Nat → Sig65 := fun _ => ⟨List.replicate 65 0, by simp⟩

/-- Witness for C10: two 32-plus-byte payloads that agree on their first
32 bytes get the same signature. -/
theorem secp256k1_signs_first_32_witness :
    32 ≤ (List.replicate 40 7 : List Nat).length ∧
    (List.replicate 40 7 : List Nat).take 32
      = (List.replicate 32 7 ++ [1, 2]).take 32 ∧
    secp256k1SigningFn signHashW (List.replicate 40 7)
      = secp256k1SigningFn signHashW (List.replicate 32 7 ++ [1, 2]) :=
  ⟨by decide, by decide,
   (secp256k1_signs_first_32 signHashW (List.replicate 40 7)
      (List.replicate 32 7 ++ [1, 2]) (by decide) (by decide)).2.1⟩

end Swig
